import Mathlib

/-!
Verification of the simple in-memory key-value store (hash table with
separate chaining) from the C sources.  C byte strings are embedded as
`List Nat`, one element per byte before the terminating NUL; bytes are
taken at their unsigned values (identical to the C code for ASCII keys).
The `size_t` entry counter is embedded as `Nat`: it changes by one per
call, so wraparound of the 64-bit counter is unreachable in any execution
that fits in the machine's address space.
-/

set_option autoImplicit false
set_option maxRecDepth 8192

namespace SimpleDB

/-- `#define HASH_TABLE_SIZE 1024` -/
def HASH_TABLE_SIZE : Nat := 1024

/-- `#define MAX_KEY_LENGTH 256` -/
def MAX_KEY_LENGTH : Nat := 256

/-- `#define MAX_VALUE_LENGTH 4096` -/
def MAX_VALUE_LENGTH : Nat := 4096

/-- One step of the DJB2 loop body: `hash = ((hash << 5) + hash) + c`,
computed in `uint32_t` (mod 2^32). -/
def hashStep (h c : Nat) : Nat := (((h <<< 5) + h) + c) % 4294967296

/-- `hash_function`: DJB2 over the key's bytes, reduced `% HASH_TABLE_SIZE`. -/
def hash_function (key : List Nat) : Nat :=
  (key.foldl hashStep 5381) % HASH_TABLE_SIZE

/-- An `Entry` of a bucket chain: owned key and value strings.  The `next`
pointer of the C struct is embedded as the tail of the containing list. -/
structure Entry where
  key : List Nat
  value : List Nat
  deriving DecidableEq, Repr

/-- The `Database` struct: a fixed array of 1024 chain heads and a counter. -/
structure Database where
  table : Fin HASH_TABLE_SIZE → List Entry
  count : Nat

/-- The `DBStats` struct. -/
structure DBStats where
  total_entries : Nat
  total_collisions : Nat
  max_chain_length : Nat
  used_buckets : Nat
  deriving DecidableEq, Repr

theorem hash_function_lt (key : List Nat) : hash_function key < HASH_TABLE_SIZE :=
  Nat.mod_lt _ (by norm_num [HASH_TABLE_SIZE])

/-- The bucket index `hash_function(key)` as a `Fin HASH_TABLE_SIZE`. -/
def keyIndex (key : List Nat) : Fin HASH_TABLE_SIZE :=
  ⟨hash_function key, hash_function_lt key⟩

/-- `db_create`: a zeroed table (`calloc`) — every chain head NULL, count 0. -/
def db_create : Database :=
  { table := fun _ => [], count := 0 }

/-- The update loop of `db_set`: walk the chain; at the first entry whose
key compares equal, replace its value in place (the entry keeps its key
string and its chain position) and return the updated chain; `none` when
no entry matches. -/
def replaceValue : List Entry → List Nat → List Nat → Option (List Entry)
  | [], _, _ => none
  | e :: rest, k, v =>
      if e.key = k then some ({ key := e.key, value := v } :: rest)
      else (replaceValue rest k v).map (e :: ·)

/-- The lookup loop of `db_get`: first entry with an equal key. -/
def chainGet : List Entry → List Nat → Option (List Nat)
  | [], _ => none
  | e :: rest, k => if e.key = k then some e.value else chainGet rest k

/-- The unlink loop of `db_delete`: remove the first entry with an equal
key (updating the head, or the previous node's successor); `none` when no
entry matches. -/
def chainDelete : List Entry → List Nat → Option (List Entry)
  | [], _ => none
  | e :: rest, k =>
      if e.key = k then some rest
      else (chainDelete rest k).map (e :: ·)

/-- `db_set` after its NULL guard, with the outcome of each allocation made
explicit: `updOk` is whether `strdup(value)` on the update path succeeds,
`newOk` whether `create_entry` (its `malloc` and both `strdup`s) succeeds.
Returns the C function's boolean result paired with the resulting store. -/
def db_setA (updOk newOk : Bool) (db : Database) (key value : List Nat) :
    Bool × Database :=
  if MAX_KEY_LENGTH ≤ key.length ∨ MAX_VALUE_LENGTH ≤ value.length then
    (false, db)
  else
    match replaceValue (db.table (keyIndex key)) key value with
    | some chain =>
        if updOk then
          (true, { db with table := Function.update db.table (keyIndex key) chain })
        else (false, db)
    | none =>
        if newOk then
          (true, { table := Function.update db.table (keyIndex key)
                     ({ key := key, value := value } :: db.table (keyIndex key)),
                   count := db.count + 1 })
        else (false, db)

/-- `db_set` in an execution where every allocation succeeds. -/
def db_set (db : Database) (key value : List Nat) : Bool × Database :=
  db_setA true true db key value

/-- `db_get` after its NULL guard. -/
def db_get (db : Database) (key : List Nat) : Option (List Nat) :=
  chainGet (db.table (keyIndex key)) key

/-- `db_delete` after its NULL guard: boolean result and resulting store. -/
def db_delete (db : Database) (key : List Nat) : Bool × Database :=
  match chainDelete (db.table (keyIndex key)) key with
  | some chain =>
      (true, { table := Function.update db.table (keyIndex key) chain,
               count := db.count - 1 })
  | none => (false, db)

/-- `db_exists`: `db_get(db, key) != NULL`. -/
def db_exists (db : Database) (key : List Nat) : Bool :=
  (db_get db key).isSome

/-- `db_count` after its NULL guard. -/
def db_count (db : Database) : Nat := db.count

/-- `db_clear` after its NULL guard: every bucket head reset, count 0. -/
def db_clear (_db : Database) : Database :=
  { table := fun _ => [], count := 0 }

/-- All entries in bucket-then-chain order (buckets `0..1023`, each chain
head to tail), the traversal order of `db_keys`, `db_stats` and `db_print`. -/
def allEntries (db : Database) : List Entry :=
  (List.ofFn db.table).flatten

/-- `db_keys` after its NULL guards: the keys in bucket-then-chain order. -/
def db_keys (db : Database) : List (List Nat) :=
  (allEntries db).map Entry.key

/-- The inner loop of `db_stats` on one chain: one collision is counted for
every entry whose `next` pointer is non-NULL. -/
def chainCollisions : List Entry → Nat
  | [] => 0
  | _ :: rest => (if rest.isEmpty then 0 else 1) + chainCollisions rest

/-- The per-bucket step of the `db_stats` scan: skip an empty bucket,
otherwise bump `used_buckets`, add the chain's collisions and take the
running maximum of the chain length. -/
def statsStep (s : DBStats) (chain : List Entry) : DBStats :=
  if chain.isEmpty then s
  else
    { s with
      used_buckets := s.used_buckets + 1
      total_collisions := s.total_collisions + chainCollisions chain
      max_chain_length := max s.max_chain_length chain.length }

/-- `db_stats` after its NULL guard: `total_entries` is read off the
counter, the rest comes from the full bucket scan. -/
def db_stats (db : Database) : DBStats :=
  (List.ofFn db.table).foldl statsStep
    { total_entries := db.count, total_collisions := 0,
      max_chain_length := 0, used_buckets := 0 }

/-- The spec's wording of the hash ("initialize accumulator to 5381; for
each byte `c` of the key, update accumulator as `accumulator*33 + c` using
unsigned wraparound arithmetic"), written independently of the code's
shift-and-add form, for the refinement statement of the hash claim. -/
def djb2Accumulator (key : List Nat) : Nat :=
  key.foldl (fun acc c => (acc * 33 + c) % 2 ^ 32) 5381

/-! ### NULL-argument wrappers

The C API functions begin with guards such as `if (!db || !key || !value)
return false;`.  The wrappers below embed those guards, with `none`
standing for a NULL pointer; the `Database` value inside `some` is never
inspected on a guard path, mirroring that the code never dereferences a
NULL argument. -/

/-- `db_set` with its NULL guard. -/
def db_setN (db : Option Database) (key value : Option (List Nat)) :
    Bool × Option Database :=
  match db, key, value with
  | some db, some k, some v => ((db_set db k v).fst, some (db_set db k v).snd)
  | db, _, _ => (false, db)

/-- `db_get` with its NULL guard. -/
def db_getN (db : Option Database) (key : Option (List Nat)) :
    Option (List Nat) :=
  match db, key with
  | some db, some k => db_get db k
  | _, _ => none

/-- `db_delete` with its NULL guard. -/
def db_deleteN (db : Option Database) (key : Option (List Nat)) :
    Bool × Option Database :=
  match db, key with
  | some db, some k => ((db_delete db k).fst, some (db_delete db k).snd)
  | db, _ => (false, db)

/-- `db_exists`: `db_get(db, key) != NULL`, NULL arguments included. -/
def db_existsN (db : Option Database) (key : Option (List Nat)) : Bool :=
  (db_getN db key).isSome

/-- `db_count`: `db ? db->count : 0`. -/
def db_countN (db : Option Database) : Nat :=
  match db with
  | some db => db_count db
  | none => 0

/-- `db_stats` with its NULL guard: the zero-initialised record is
returned untouched for a NULL handle. -/
def db_statsN (db : Option Database) : DBStats :=
  match db with
  | some db => db_stats db
  | none => { total_entries := 0, total_collisions := 0,
              max_chain_length := 0, used_buckets := 0 }

/-- `db_clear` with its NULL guard: a NULL handle is returned untouched. -/
def db_clearN (db : Option Database) : Option Database :=
  match db with
  | some db => some (db_clear db)
  | none => none

/-- `db_destroy`: consumes the handle; a NULL handle is a no-op and the
guard returns before any memory is touched. -/
def db_destroyN (db : Option Database) : Option Database :=
  match db with
  | some _ => none
  | none => none

/-- `db_keys` with its NULL guards (`!db || !count`), `countOk` standing
for a non-NULL out-parameter; a zero-entry store also yields NULL. -/
def db_keysN (db : Option Database) (countOk : Bool) :
    Option (List (List Nat)) :=
  match db, countOk with
  | some db, true => if db.count = 0 then none else some (db_keys db)
  | _, _ => none

/-! ### Pointer-level model

For the aliasing behaviour of `db_keys` the string heap must be explicit:
strings live at addresses, `strdup` allocates a fresh address, `free`
invalidates one.  An `EntryP` holds the addresses of its key and value
strings, exactly as the C `Entry` holds `char *` fields, and `db_keys`
copies `entry->key` — the address, not the bytes — into its result. -/

structure EntryP where
  keyRef : Nat
  valueRef : Nat
  deriving DecidableEq, Repr

/-- The store with its string heap explicit.  `heap r = some s` means
address `r` holds the live string `s`; `none` means unallocated or freed.
`nextRef` is the allocator's next fresh address. -/
structure DatabaseP where
  table : Fin HASH_TABLE_SIZE → List EntryP
  count : Nat
  heap : Nat → Option (List Nat)
  nextRef : Nat

/-- `db_create` in the pointer model. -/
def db_createP : DatabaseP :=
  { table := fun _ => [], count := 0, heap := fun _ => none, nextRef := 0 }

/-- The update loop of `db_set` in the pointer model: find the first entry
whose key string (read through its address) equals `k`, point it at the
freshly allocated value and report the old value's address for `free`. -/
def replaceValueP (heap : Nat → Option (List Nat)) :
    List EntryP → List Nat → Nat → Option (List EntryP × Nat)
  | [], _, _ => none
  | e :: rest, k, newRef =>
      if heap e.keyRef = some k then
        some ({ keyRef := e.keyRef, valueRef := newRef } :: rest, e.valueRef)
      else (replaceValueP heap rest k newRef).map (fun p => (e :: p.1, p.2))

/-- `db_set` in the pointer model (all allocations succeeding): the update
path `strdup`s the new value at a fresh address and frees the old one; the
insert path `create_entry`s fresh key and value strings and prepends. -/
def db_setP (db : DatabaseP) (k v : List Nat) : Bool × DatabaseP :=
  if MAX_KEY_LENGTH ≤ k.length ∨ MAX_VALUE_LENGTH ≤ v.length then (false, db)
  else
    match replaceValueP db.heap (db.table (keyIndex k)) k db.nextRef with
    | some (chain, freed) =>
        (true, { table := Function.update db.table (keyIndex k) chain
                 count := db.count
                 heap := fun r =>
                   if r = freed then none
                   else if r = db.nextRef then some v else db.heap r
                 nextRef := db.nextRef + 1 })
    | none =>
        (true, { table := Function.update db.table (keyIndex k)
                   ({ keyRef := db.nextRef, valueRef := db.nextRef + 1 } ::
                     db.table (keyIndex k))
                 count := db.count + 1
                 heap := fun r =>
                   if r = db.nextRef then some k
                   else if r = db.nextRef + 1 then some v else db.heap r
                 nextRef := db.nextRef + 2 })

/-- The unlink loop of `db_delete` in the pointer model: remove the first
matching entry and report it so `free_entry` can free its strings. -/
def chainDeleteP (heap : Nat → Option (List Nat)) :
    List EntryP → List Nat → Option (List EntryP × EntryP)
  | [], _ => none
  | e :: rest, k =>
      if heap e.keyRef = some k then some (rest, e)
      else (chainDeleteP heap rest k).map (fun p => (e :: p.1, p.2))

/-- `db_delete` in the pointer model: unlink, then `free_entry` frees the
entry's key and value strings. -/
def db_deleteP (db : DatabaseP) (k : List Nat) : Bool × DatabaseP :=
  match chainDeleteP db.heap (db.table (keyIndex k)) k with
  | some (chain, e) =>
      (true, { table := Function.update db.table (keyIndex k) chain
               count := db.count - 1
               heap := fun r =>
                 if r = e.keyRef ∨ r = e.valueRef then none else db.heap r
               nextRef := db.nextRef })
  | none => (false, db)

/-- `db_keys` in the pointer model: `keys[idx++] = entry->key` pushes the
key's address — not a copy of its bytes — for every entry, bucket by
bucket, chain head to tail. -/
def db_keysP (db : DatabaseP) : List Nat :=
  (List.ofFn db.table).foldl (fun acc chain => acc ++ chain.map EntryP.keyRef) []

/-! ### Store invariants

The three invariants of the spec's data model: the counter equals the
number of entries reachable by walking every bucket's chain, a key occurs
in at most one entry across the whole table, and every entry sits in the
bucket its key hashes to. -/

def Invariant (db : Database) : Prop :=
  db.count = (allEntries db).length ∧
  ((allEntries db).map Entry.key).Nodup ∧
  ∀ (i : Fin HASH_TABLE_SIZE), ∀ e ∈ db.table i, hash_function e.key = i.val

/-! ### Concrete stores for witnesses and counterexamples -/

/-- A store holding the single pair `"a" ↦ "b"` (byte lists `[97] ↦ [98]`). -/
def dbW : Database := (db_set db_create [97] [98]).snd

/-- The pointer-model store after `db_set(db, "a", "x")` on a fresh store. -/
def dbP1 : DatabaseP := (db_setP db_createP [97] [120]).snd

/-! ### Helper lemmas about the chain loops -/

theorem replaceValue_keys {c : List Entry} {k v : List Nat} {c' : List Entry}
    (h : replaceValue c k v = some c') : c'.map Entry.key = c.map Entry.key := by
  induction c generalizing c' with
  | nil => simp [replaceValue] at h
  | cons e rest ih =>
      by_cases he : e.key = k
      · simp only [replaceValue, if_pos he, Option.some.injEq] at h
        subst h; simp
      · simp only [replaceValue, if_neg he, Option.map_eq_some'] at h
        obtain ⟨c'', hc'', rfl⟩ := h
        simp [ih hc'']

theorem replaceValue_chainGet {c : List Entry} {k v : List Nat} {c' : List Entry}
    (h : replaceValue c k v = some c') : chainGet c' k = some v := by
  induction c generalizing c' with
  | nil => simp [replaceValue] at h
  | cons e rest ih =>
      by_cases he : e.key = k
      · simp only [replaceValue, if_pos he, Option.some.injEq] at h
        subst h; simp [chainGet, he]
      · simp only [replaceValue, if_neg he, Option.map_eq_some'] at h
        obtain ⟨c'', hc'', rfl⟩ := h
        simp [chainGet, if_neg he, ih hc'']

theorem replaceValue_eq_none {c : List Entry} {k v : List Nat} :
    replaceValue c k v = none ↔ ∀ e ∈ c, e.key ≠ k := by
  induction c with
  | nil => simp [replaceValue]
  | cons e rest ih =>
      by_cases he : e.key = k
      · simp [replaceValue, if_pos he, he]
      · simp [replaceValue, if_neg he, he, ih]

theorem chainGet_eq_none {c : List Entry} {k : List Nat} :
    chainGet c k = none ↔ ∀ e ∈ c, e.key ≠ k := by
  induction c with
  | nil => simp [chainGet]
  | cons e rest ih =>
      by_cases he : e.key = k
      · simp [chainGet, if_pos he, he]
      · simp [chainGet, if_neg he, he, ih]

theorem chainDelete_eq_none {c : List Entry} {k : List Nat} :
    chainDelete c k = none ↔ ∀ e ∈ c, e.key ≠ k := by
  induction c with
  | nil => simp [chainDelete]
  | cons e rest ih =>
      by_cases he : e.key = k
      · simp [chainDelete, if_pos he, he]
      · simp [chainDelete, if_neg he, he, ih]

theorem chainDelete_eraseP {c : List Entry} {k : List Nat} {c' : List Entry}
    (h : chainDelete c k = some c') :
    c' = c.eraseP (fun e => decide (e.key = k)) := by
  induction c generalizing c' with
  | nil => simp [chainDelete] at h
  | cons e rest ih =>
      by_cases he : e.key = k
      · simp only [chainDelete, if_pos he, Option.some.injEq] at h
        subst h
        simp [List.eraseP_cons, he]
      · simp only [chainDelete, if_neg he, Option.map_eq_some'] at h
        obtain ⟨c'', hc'', rfl⟩ := h
        simp [List.eraseP_cons, he, ih hc'']

theorem chainDelete_length {c : List Entry} {k : List Nat} {c' : List Entry}
    (h : chainDelete c k = some c') : c'.length + 1 = c.length := by
  induction c generalizing c' with
  | nil => simp [chainDelete] at h
  | cons e rest ih =>
      by_cases he : e.key = k
      · simp only [chainDelete, if_pos he, Option.some.injEq] at h
        subst h; rfl
      · simp only [chainDelete, if_neg he, Option.map_eq_some'] at h
        obtain ⟨c'', hc'', rfl⟩ := h
        simp [← ih hc'']

theorem chainDelete_sublist {c : List Entry} {k : List Nat} {c' : List Entry}
    (h : chainDelete c k = some c') : c'.Sublist c := by
  rw [chainDelete_eraseP h]
  exact List.eraseP_sublist c

/-! ### Helper lemmas about the invariant -/

theorem keys_flatten (db : Database) :
    (allEntries db).map Entry.key =
      (List.ofFn (fun i => (db.table i).map Entry.key)).flatten := by
  rw [allEntries, List.map_flatten, List.map_ofFn]
  rfl

theorem allEntries_length (db : Database) :
    (allEntries db).length = ∑ j : Fin HASH_TABLE_SIZE, (db.table j).length := by
  rw [allEntries, List.length_flatten, List.map_ofFn, List.sum_ofFn]
  rfl

theorem bucket_keys_nodup {db : Database}
    (hn : ((allEntries db).map Entry.key).Nodup) (i : Fin HASH_TABLE_SIZE) :
    ((db.table i).map Entry.key).Nodup := by
  rw [keys_flatten] at hn
  exact (List.nodup_flatten.1 hn).1 _ ((List.mem_ofFn _ _).2 ⟨i, rfl⟩)

theorem nodup_global {db : Database}
    (hpb : ∀ i : Fin HASH_TABLE_SIZE, ((db.table i).map Entry.key).Nodup)
    (hp : ∀ (i : Fin HASH_TABLE_SIZE), ∀ e ∈ db.table i, hash_function e.key = i.val) :
    ((allEntries db).map Entry.key).Nodup := by
  rw [keys_flatten, List.nodup_flatten]
  refine ⟨fun l hl => ?_, ?_⟩
  · obtain ⟨j, rfl⟩ := (List.mem_ofFn _ _).1 hl
    exact hpb j
  · rw [List.pairwise_ofFn]
    intro a b hab s hsa hsb
    obtain ⟨ea, hea, rfl⟩ := List.mem_map.1 hsa
    obtain ⟨eb, heb, hkey⟩ := List.mem_map.1 hsb
    have ha := hp a ea hea
    have hb := hp b eb heb
    rw [hkey] at hb
    exact absurd (Fin.val_injective (ha.symm.trans hb)) (Nat.ne_of_lt hab ∘ congrArg Fin.val)

theorem sum_length_update (db : Database) (i : Fin HASH_TABLE_SIZE)
    (c : List Entry) :
    ∑ j : Fin HASH_TABLE_SIZE, (Function.update db.table i c j).length =
      c.length + ∑ j in Finset.univ \ {i}, (db.table j).length := by
  have hfun : (fun j => (Function.update db.table i c j).length) =
      Function.update (fun j => (db.table j).length) i c.length := by
    funext j
    rcases eq_or_ne j i with rfl | hne
    · simp
    · simp [Function.update_noteq hne]
  rw [hfun, Finset.sum_update_of_mem (Finset.mem_univ i)]

theorem sum_length_split (db : Database) (i : Fin HASH_TABLE_SIZE) :
    ∑ j : Fin HASH_TABLE_SIZE, (db.table j).length =
      (db.table i).length + ∑ j in Finset.univ \ {i}, (db.table j).length := by
  rw [← Finset.sum_update_of_mem (Finset.mem_univ i)]
  apply Finset.sum_congr rfl
  intro j _
  rcases eq_or_ne j i with rfl | hne
  · simp
  · simp [Function.update_noteq hne]

/-- Master lemma: updating one bucket preserves the invariant, provided
the new chain is placed correctly, has no duplicate keys, and the new
counter accounts for the length change. -/
theorem invariant_update {db : Database} (i : Fin HASH_TABLE_SIZE)
    (c : List Entry) (cnt : Nat) (hInv : Invariant db)
    (hplace : ∀ e ∈ c, hash_function e.key = i.val)
    (hnd : (c.map Entry.key).Nodup)
    (hcnt : cnt + (db.table i).length = db.count + c.length) :
    Invariant { table := Function.update db.table i c, count := cnt } := by
  obtain ⟨hc, hn, hp⟩ := hInv
  have hplaced' : ∀ (j : Fin HASH_TABLE_SIZE),
      ∀ e ∈ Function.update db.table i c j, hash_function e.key = j.val := by
    intro j e he
    rcases eq_or_ne j i with rfl | hne
    · rw [Function.update_same] at he
      exact hplace e he
    · rw [Function.update_noteq hne] at he
      exact hp j e he
  refine ⟨?_, ?_, hplaced'⟩
  · have h1 : (allEntries { table := Function.update db.table i c, count := cnt }).length
        = ∑ j : Fin HASH_TABLE_SIZE, (Function.update db.table i c j).length :=
      allEntries_length _
    have h2 := allEntries_length db
    have h3 := sum_length_update db i c
    have h4 := sum_length_split db i
    show cnt = (allEntries _).length
    omega
  · apply nodup_global
    · intro j
      rcases eq_or_ne j i with rfl | hne
      · simpa using hnd
      · simp only [Function.update_noteq hne]
        exact bucket_keys_nodup hn j
    · exact hplaced'

theorem invariant_empty : Invariant { table := fun _ => [], count := 0 } := by
  have hlen : (allEntries { table := fun _ => [], count := 0 }).length = 0 := by
    rw [allEntries_length]
    simp
  refine ⟨hlen.symm, ?_, ?_⟩
  · rw [List.length_eq_zero.1 hlen]
    exact List.nodup_nil
  · intro i e he
    simp at he

theorem invariant_db_create : Invariant db_create := invariant_empty

theorem invariant_db_clear (db : Database) : Invariant (db_clear db) :=
  invariant_empty

theorem invariant_db_setA (updOk newOk : Bool) (db : Database)
    (key value : List Nat) (h : Invariant db) :
    Invariant (db_setA updOk newOk db key value).snd := by
  rw [db_setA]
  by_cases hval : MAX_KEY_LENGTH ≤ key.length ∨ MAX_VALUE_LENGTH ≤ value.length
  · rw [if_pos hval]
    exact h
  · rw [if_neg hval]
    rcases hrepl : replaceValue (db.table (keyIndex key)) key value with _ | c'
    · cases newOk with
      | false => exact h
      | true =>
          apply invariant_update (keyIndex key) _ _ h
          · intro e he
            rcases List.mem_cons.1 he with rfl | he'
            · rfl
            · exact h.2.2 (keyIndex key) e he'
          · rw [List.map_cons, List.nodup_cons]
            refine ⟨?_, bucket_keys_nodup h.2.1 (keyIndex key)⟩
            intro hmem
            obtain ⟨e, he, hk⟩ := List.mem_map.1 hmem
            exact (replaceValue_eq_none.1 hrepl) e he hk
          · simp [List.length_cons]
            omega
    · cases updOk with
      | false => exact h
      | true =>
          have hkeys := replaceValue_keys hrepl
          have hlen : c'.length = (db.table (keyIndex key)).length := by
            have := congrArg List.length hkeys
            simpa using this
          apply invariant_update (keyIndex key) _ _ h
          · intro e he
            have : e.key ∈ c'.map Entry.key := List.mem_map_of_mem _ he
            rw [hkeys] at this
            obtain ⟨e₀, he₀, hk₀⟩ := List.mem_map.1 this
            rw [← hk₀]
            exact h.2.2 (keyIndex key) e₀ he₀
          · rw [hkeys]
            exact bucket_keys_nodup h.2.1 (keyIndex key)
          · omega

theorem invariant_db_set (db : Database) (key value : List Nat)
    (h : Invariant db) : Invariant (db_set db key value).snd :=
  invariant_db_setA true true db key value h

theorem invariant_db_delete (db : Database) (key : List Nat)
    (h : Invariant db) : Invariant (db_delete db key).snd := by
  rw [db_delete]
  rcases hdel : chainDelete (db.table (keyIndex key)) key with _ | c'
  · exact h
  · have hsub := chainDelete_sublist hdel
    have hlen := chainDelete_length hdel
    have hge : (db.table (keyIndex key)).length ≤ db.count := by
      rw [h.1, allEntries_length]
      exact Finset.single_le_sum (f := fun j => (db.table j).length)
        (fun j _ => Nat.zero_le _) (Finset.mem_univ (keyIndex key))
    apply invariant_update (keyIndex key) _ _ h
    · intro e he
      exact h.2.2 (keyIndex key) e (hsub.mem he)
    · exact (bucket_keys_nodup h.2.1 (keyIndex key)).sublist (hsub.map Entry.key)
    · omega

/-! ### Helper lemmas about the statistics scan -/

theorem chainCollisions_eq (c : List Entry) :
    chainCollisions c = c.length - 1 := by
  induction c with
  | nil => rfl
  | cons e rest ih =>
      cases rest with
      | nil => rfl
      | cons e' rest' =>
          have hstep : chainCollisions (e :: e' :: rest') =
              1 + chainCollisions (e' :: rest') := rfl
          rw [hstep, ih]
          simp only [List.length_cons]
          omega

theorem statsFold (L : List (List Entry)) (s : DBStats) :
    L.foldl statsStep s =
      { total_entries := s.total_entries
        used_buckets := s.used_buckets + L.countP (fun c => !c.isEmpty)
        total_collisions :=
          s.total_collisions + (L.map (fun c => c.length - 1)).sum
        max_chain_length :=
          max s.max_chain_length ((L.map List.length).foldr max 0) } := by
  induction L generalizing s with
  | nil => simp
  | cons c L ih =>
      rw [List.foldl_cons]
      rcases hc : c.isEmpty with _ | _
      · have hs : statsStep s c =
            { total_entries := s.total_entries
              total_collisions := s.total_collisions + chainCollisions c
              max_chain_length := max s.max_chain_length c.length
              used_buckets := s.used_buckets + 1 } := by
          rw [statsStep, if_neg (by simp [hc])]
        have hcol := chainCollisions_eq c
        rw [hs, ih]
        simp only [DBStats.mk.injEq]
        refine ⟨trivial, ?_, ?_, ?_⟩
        · rw [List.map_cons, List.sum_cons, hcol]
          omega
        · rw [List.map_cons, List.foldr_cons]
          exact max_assoc _ _ _
        · rw [List.countP_cons]
          simp only [hc, Bool.not_false, eq_self_iff_true, if_true]
          omega
      · have hnil : c = [] := by
          cases c with
          | nil => rfl
          | cons x xs => simp [List.isEmpty] at hc
        subst hnil
        have hs : statsStep s [] = s := rfl
        rw [hs, ih]
        simp [DBStats.mk.injEq, Nat.zero_max]

/-- The key-collecting loop of `db_keys` (pointer model) appends each
chain's key addresses in bucket order. -/
theorem keysP_foldl (L : List (List EntryP)) (acc : List Nat) :
    L.foldl (fun a c => a ++ c.map EntryP.keyRef) acc =
      acc ++ L.flatten.map EntryP.keyRef := by
  induction L generalizing acc with
  | nil => simp
  | cons c L ih =>
      rw [List.foldl_cons, ih, List.flatten_cons, List.map_append,
        List.append_assoc]

/-! ### Claim theorems -/

/-- C1 (counterexample): the claim says `set` with an empty key fails with
`InvalidArgument` and leaves the store unchanged.  On the code, an empty
key passes the length validation (`strlen(key) >= MAX_KEY_LENGTH` is
false for length 0): `db_set(db, "", "a")` on a fresh store returns true
and the empty key is stored and retrievable. -/
theorem C1_counterexample :
    (db_set db_create [] [97]).fst = true ∧
      db_get (db_set db_create [] [97]).snd [] = some [97] :=
  ⟨rfl, rfl⟩

/-- C1 (amended): `db_set` fails (returns false) and leaves the store
exactly as it was precisely on the length validation — key length at
least `MAX_KEY_LENGTH` (256) or value length at least `MAX_VALUE_LENGTH`
(4096); an empty key is not rejected. -/
theorem C1_set_invalid_lengths (db : Database) (key value : List Nat)
    (h : MAX_KEY_LENGTH ≤ key.length ∨ MAX_VALUE_LENGTH ≤ value.length) :
    db_set db key value = (false, db) := by
  rw [db_set, db_setA, if_pos h]

theorem C1_set_invalid_lengths_witness :
    (MAX_KEY_LENGTH ≤ (List.replicate 256 97).length ∨
      MAX_VALUE_LENGTH ≤ ([97] : List Nat).length) ∧
      db_set db_create (List.replicate 256 97) [97] = (false, db_create) :=
  ⟨Or.inl (by rw [List.length_replicate, MAX_KEY_LENGTH]),
    C1_set_invalid_lengths db_create (List.replicate 256 97) [97]
      (Or.inl (by rw [List.length_replicate, MAX_KEY_LENGTH]))⟩

/-- C2: for any store and any key/value within the length bounds,
`set(k, v)` succeeds and an immediate `get(k)` returns `v`. -/
theorem C2_set_then_get (db : Database) (key value : List Nat)
    (hk : key.length < MAX_KEY_LENGTH) (hv : value.length < MAX_VALUE_LENGTH) :
    (db_set db key value).fst = true ∧
      db_get (db_set db key value).snd key = some value := by
  have hval : ¬(MAX_KEY_LENGTH ≤ key.length ∨ MAX_VALUE_LENGTH ≤ value.length) := by
    omega
  rw [db_set, db_setA, if_neg hval]
  rcases hrepl : replaceValue (db.table (keyIndex key)) key value with _ | c'
  · refine ⟨rfl, ?_⟩
    show chainGet (Function.update db.table (keyIndex key) _ (keyIndex key)) key
      = some value
    rw [Function.update_same, chainGet, if_pos rfl]
  · refine ⟨rfl, ?_⟩
    show chainGet (Function.update db.table (keyIndex key) c' (keyIndex key)) key
      = some value
    rw [Function.update_same]
    exact replaceValue_chainGet hrepl

theorem C2_set_then_get_witness :
    ([97] : List Nat).length < MAX_KEY_LENGTH ∧
      ([98] : List Nat).length < MAX_VALUE_LENGTH ∧
      (db_set db_create [97] [98]).fst = true ∧
      db_get (db_set db_create [97] [98]).snd [97] = some [98] := by
  refine ⟨by norm_num [MAX_KEY_LENGTH], by norm_num [MAX_VALUE_LENGTH], ?_⟩
  exact C2_set_then_get db_create [97] [98]
    (by norm_num [MAX_KEY_LENGTH]) (by norm_num [MAX_VALUE_LENGTH])

/-- C3: a valid `set(k, v2)` on a store already containing `k` replaces
the value in place: it succeeds, `get(k)` afterwards returns `v2`, the
counter is unchanged, and every bucket's sequence of keys — in particular
the entry's position in its chain — is unchanged. -/
theorem C3_set_replaces_in_place (db : Database) (key v2 : List Nat)
    (hk : key.length < MAX_KEY_LENGTH) (hv : v2.length < MAX_VALUE_LENGTH)
    (hex : db_exists db key = true) :
    (db_set db key v2).fst = true ∧
      db_count (db_set db key v2).snd = db_count db ∧
      (∀ j : Fin HASH_TABLE_SIZE,
        ((db_set db key v2).snd.table j).map Entry.key =
          (db.table j).map Entry.key) ∧
      db_get (db_set db key v2).snd key = some v2 := by
  have hval : ¬(MAX_KEY_LENGTH ≤ key.length ∨ MAX_VALUE_LENGTH ≤ v2.length) := by
    omega
  have hget : ¬chainGet (db.table (keyIndex key)) key = none := by
    intro hnone
    rw [db_exists, db_get, hnone] at hex
    simp at hex
  rw [db_set, db_setA, if_neg hval]
  rcases hrepl : replaceValue (db.table (keyIndex key)) key v2 with _ | c'
  · exact absurd (chainGet_eq_none.2 (replaceValue_eq_none.1 hrepl)) hget
  · refine ⟨rfl, rfl, ?_, ?_⟩
    · intro j
      rcases eq_or_ne j (keyIndex key) with rfl | hne
      · show ((Function.update db.table (keyIndex key) c' (keyIndex key)).map
          Entry.key) = _
        rw [Function.update_same]
        exact replaceValue_keys hrepl
      · show ((Function.update db.table (keyIndex key) c' j).map Entry.key) = _
        rw [Function.update_noteq hne]
    · show chainGet (Function.update db.table (keyIndex key) c' (keyIndex key)) key
        = some v2
      rw [Function.update_same]
      exact replaceValue_chainGet hrepl

theorem C3_set_replaces_in_place_witness :
    ([97] : List Nat).length < MAX_KEY_LENGTH ∧
      ([99] : List Nat).length < MAX_VALUE_LENGTH ∧
      db_exists dbW [97] = true ∧
      ((db_set dbW [97] [99]).fst = true ∧
        db_count (db_set dbW [97] [99]).snd = db_count dbW ∧
        (∀ j : Fin HASH_TABLE_SIZE,
          ((db_set dbW [97] [99]).snd.table j).map Entry.key =
            (dbW.table j).map Entry.key) ∧
        db_get (db_set dbW [97] [99]).snd [97] = some [99]) :=
  ⟨by norm_num [MAX_KEY_LENGTH], by norm_num [MAX_VALUE_LENGTH], rfl,
    C3_set_replaces_in_place dbW [97] [99]
      (by norm_num [MAX_KEY_LENGTH]) (by norm_num [MAX_VALUE_LENGTH]) rfl⟩

/-- C4: on a store satisfying the invariants, `delete(k)` with `k` present
returns true, unlinks exactly the (first and only) matching entry of its
bucket chain, and decrements the counter by exactly one; with `k` absent
it returns false and leaves the store — table and counter — unchanged. -/
theorem C4_delete_semantics (db : Database) (key : List Nat)
    (hInv : Invariant db) :
    (db_exists db key = true →
      (db_delete db key).fst = true ∧
        (db_delete db key).snd.count + 1 = db.count ∧
        (db_delete db key).snd.table =
          Function.update db.table (keyIndex key)
            ((db.table (keyIndex key)).eraseP (fun e => decide (e.key = key)))) ∧
    (db_exists db key = false → db_delete db key = (false, db)) := by
  constructor
  · intro hex
    have hget : ¬chainGet (db.table (keyIndex key)) key = none := by
      intro hnone
      rw [db_exists, db_get, hnone] at hex
      simp at hex
    rw [db_delete]
    rcases hdel : chainDelete (db.table (keyIndex key)) key with _ | c'
    · exact absurd (chainGet_eq_none.2 (chainDelete_eq_none.1 hdel)) hget
    · have hlen := chainDelete_length hdel
      have hge : (db.table (keyIndex key)).length ≤ db.count := by
        rw [hInv.1, allEntries_length]
        exact Finset.single_le_sum (f := fun j => (db.table j).length)
          (fun j _ => Nat.zero_le _) (Finset.mem_univ (keyIndex key))
      refine ⟨rfl, ?_, ?_⟩
      · show (db.count - 1) + 1 = db.count
        omega
      · show Function.update db.table (keyIndex key) c' = _
        rw [chainDelete_eraseP hdel]
  · intro hab
    rw [db_delete]
    rcases hdel : chainDelete (db.table (keyIndex key)) key with _ | c'
    · rfl
    · exfalso
      have hnone : chainGet (db.table (keyIndex key)) key = none := by
        rw [db_exists, db_get] at hab
        rcases hg : chainGet (db.table (keyIndex key)) key with _ | v
        · rfl
        · rw [hg] at hab
          simp at hab
      have := chainDelete_eq_none.2 (chainGet_eq_none.1 hnone)
      rw [this] at hdel
      exact Option.noConfusion hdel

theorem C4_delete_semantics_witness :
    Invariant dbW ∧
      ((db_exists dbW [97] = true →
        (db_delete dbW [97]).fst = true ∧
          (db_delete dbW [97]).snd.count + 1 = dbW.count ∧
          (db_delete dbW [97]).snd.table =
            Function.update dbW.table (keyIndex [97])
              ((dbW.table (keyIndex [97])).eraseP
                (fun e => decide (e.key = [97])))) ∧
      (db_exists dbW [97] = false → db_delete dbW [97] = (false, dbW))) :=
  ⟨invariant_db_set db_create [97] [98] invariant_db_create,
    C4_delete_semantics dbW [97]
      (invariant_db_set db_create [97] [98] invariant_db_create)⟩

/-- C5: the mutating operations preserve the store invariants — the
counter equals the number of entries reachable through all bucket chains,
keys are unique across the table, and every entry sits in the bucket its
key hashes to.  The read-only operations (`db_get`, `db_exists`,
`db_count`, `db_keys`, `db_stats`) are embedded as pure functions of the
store — they return no modified store, mirroring that their code never
writes — so they preserve the invariants trivially. -/
theorem C5_invariants_preserved (db : Database) (key value : List Nat)
    (h : Invariant db) :
    Invariant (db_set db key value).snd ∧
      Invariant (db_delete db key).snd ∧
      Invariant (db_clear db) :=
  ⟨invariant_db_set db key value h, invariant_db_delete db key h,
    invariant_db_clear db⟩

theorem C5_invariants_preserved_witness :
    Invariant db_create ∧
      (Invariant (db_set db_create [97] [98]).snd ∧
        Invariant (db_delete db_create [97]).snd ∧
        Invariant (db_clear db_create)) :=
  ⟨invariant_db_create,
    C5_invariants_preserved db_create [97] [98] invariant_db_create⟩

/-- C6: whenever `set` fails — invalid argument lengths, `strdup` failure
while replacing an existing key's value (`updOk = false`), or
`create_entry` failure while inserting a new entry (`newOk = false`) —
the store is returned exactly as it was: no partial insert or update. -/
theorem C6_failed_set_unchanged (updOk newOk : Bool) (db : Database)
    (key value : List Nat)
    (hfail : (db_setA updOk newOk db key value).fst = false) :
    (db_setA updOk newOk db key value).snd = db := by
  rw [db_setA] at hfail ⊢
  by_cases hval : MAX_KEY_LENGTH ≤ key.length ∨ MAX_VALUE_LENGTH ≤ value.length
  · rw [if_pos hval]
  · rw [if_neg hval] at hfail ⊢
    rcases hrepl : replaceValue (db.table (keyIndex key)) key value with _ | c' <;>
      rw [hrepl] at hfail
    · cases newOk with
      | false => rfl
      | true => exact absurd hfail (by simp)
    · cases updOk with
      | false => rfl
      | true => exact absurd hfail (by simp)

theorem C6_failed_set_unchanged_witness :
    (db_setA false true dbW [97] [99]).fst = false ∧
      (db_setA false true dbW [97] [99]).snd = dbW :=
  ⟨rfl, C6_failed_set_unchanged false true dbW [97] [99] rfl⟩

/-- C7 (counterexample): the claim says `keys()` returns owned, copied
strings that do not alias the store's live internal string storage, so a
later `delete` cannot corrupt an enumeration of the result.  In the code,
`db_keys` stores `entry->key` — the internal pointer itself.  Concretely:
after `set("a", "x")` on a fresh store, `db_keys` returns exactly the
address (0) of the live internal key string of the stored entry, and
`delete("a")` frees that address — the returned collection then points at
freed storage. -/
theorem C7_counterexample :
    (0 : Nat) ∈ db_keysP dbP1 ∧
      (∃ e ∈ dbP1.table (keyIndex [97]), e.keyRef = 0) ∧
      dbP1.heap 0 = some [97] ∧
      (db_deleteP dbP1 [97]).snd.heap 0 = none := by
  have htab : dbP1.table (keyIndex [97]) = [{ keyRef := 0, valueRef := 1 }] := rfl
  refine ⟨?_, ⟨{ keyRef := 0, valueRef := 1 }, ?_, rfl⟩, rfl, rfl⟩
  · rw [db_keysP, keysP_foldl, List.nil_append]
    refine List.mem_map.2 ⟨{ keyRef := 0, valueRef := 1 }, ?_, rfl⟩
    refine List.mem_flatten.2 ⟨dbP1.table (keyIndex [97]),
      (List.mem_ofFn _ _).2 ⟨keyIndex [97], rfl⟩, ?_⟩
    rw [htab]
    exact List.mem_singleton.2 rfl
  · rw [htab]
    exact List.mem_singleton.2 rfl

/-- C7 (amended): `db_keys` returns, in bucket-then-chain order, the
store's internal key pointers themselves: only the array is fresh, every
element aliases the key storage of a live entry, so a subsequent `delete`
or `clear` frees storage referenced by the returned collection. -/
theorem C7_keys_alias_internal (db : DatabaseP) :
    db_keysP db = (List.ofFn db.table).flatten.map EntryP.keyRef ∧
      ∀ r ∈ db_keysP db,
        ∃ i : Fin HASH_TABLE_SIZE, ∃ e ∈ db.table i, e.keyRef = r := by
  have hkeys : db_keysP db = (List.ofFn db.table).flatten.map EntryP.keyRef := by
    rw [db_keysP, keysP_foldl, List.nil_append]
  refine ⟨hkeys, ?_⟩
  intro r hr
  rw [hkeys] at hr
  obtain ⟨e, he, rfl⟩ := List.mem_map.1 hr
  obtain ⟨l, hl, hel⟩ := List.mem_flatten.1 he
  obtain ⟨i, rfl⟩ := (List.mem_ofFn _ _).1 hl
  exact ⟨i, e, hel, rfl⟩

/-- C8: the hash is the DJB2 variant of the spec — accumulator 5381,
step `accumulator*33 + c` per byte in wrapping 32-bit arithmetic
(`djb2Accumulator` transcribes the spec's wording; the code computes the
step as `((hash << 5) + hash) + c`), reduced mod `HASH_TABLE_SIZE`, hence
always in `[0, HASH_TABLE_SIZE)`; and it is deterministic — any two calls
on equal keys yield equal indices. -/
theorem C8_hash_djb2 (key : List Nat) :
    hash_function key < HASH_TABLE_SIZE ∧
      hash_function key = djb2Accumulator key % HASH_TABLE_SIZE ∧
      ∀ key2 : List Nat, key2 = key → hash_function key2 = hash_function key := by
  refine ⟨hash_function_lt key, ?_, fun key2 hk => by rw [hk]⟩
  have hstep : hashStep = fun h c => (h * 33 + c) % 2 ^ 32 := by
    funext h c
    rw [hashStep, Nat.shiftLeft_eq, show (2 : Nat) ^ 32 = 4294967296 by norm_num]
    congr 1
  rw [hash_function, djb2Accumulator, hstep]

theorem C8_hash_djb2_witness :
    hash_function [104, 105] < HASH_TABLE_SIZE ∧
      hash_function [104, 105] = djb2Accumulator [104, 105] % HASH_TABLE_SIZE ∧
      hash_function [104, 105] = hash_function [104, 105] :=
  ⟨(C8_hash_djb2 [104, 105]).1, (C8_hash_djb2 [104, 105]).2.1,
    (C8_hash_djb2 [104, 105]).2.2 [104, 105] rfl⟩

/-- C9: on a store satisfying the invariants, `db_stats` reports
`total_entries` equal to `db_count` and to the sum of all chain lengths,
`used_buckets` equal to the number of non-empty buckets,
`total_collisions` equal to the sum over buckets of `chain length - 1`
(truncated at zero), and `max_chain_length` equal to the longest chain's
length (0 for an empty table).  The scan is embedded as a pure function
of the store — it returns only the statistics record, mirroring that its
code never writes to the table. -/
theorem C9_stats_consistent (db : Database) (h : Invariant db) :
    (db_stats db).total_entries = db_count db ∧
      (db_stats db).total_entries = ((List.ofFn db.table).map List.length).sum ∧
      (db_stats db).used_buckets =
        ((List.ofFn db.table).filter (fun c => !c.isEmpty)).length ∧
      (db_stats db).total_collisions =
        ((List.ofFn db.table).map (fun c => c.length - 1)).sum ∧
      (db_stats db).max_chain_length =
        ((List.ofFn db.table).map List.length).foldr max 0 := by
  rw [db_stats, statsFold]
  refine ⟨rfl, ?_, ?_, ?_, ?_⟩
  · show db.count = _
    rw [h.1, allEntries, List.length_flatten]
  · show 0 + _ = _
    rw [Nat.zero_add, List.countP_eq_length_filter]
  · show 0 + _ = _
    rw [Nat.zero_add]
  · show max 0 _ = _
    rw [Nat.zero_max]

theorem C9_stats_consistent_witness :
    Invariant db_create ∧
      ((db_stats db_create).total_entries = db_count db_create ∧
        (db_stats db_create).total_entries =
          ((List.ofFn db_create.table).map List.length).sum ∧
        (db_stats db_create).used_buckets =
          ((List.ofFn db_create.table).filter (fun c => !c.isEmpty)).length ∧
        (db_stats db_create).total_collisions =
          ((List.ofFn db_create.table).map (fun c => c.length - 1)).sum ∧
        (db_stats db_create).max_chain_length =
          ((List.ofFn db_create.table).map List.length).foldr max 0) :=
  ⟨invariant_db_create, C9_stats_consistent db_create invariant_db_create⟩

/-- C10: every public operation guards its NULL arguments before touching
them: `db_set`, `db_delete` return false with the store untouched,
`db_exists` returns false, `db_get` returns NULL, `db_count` returns 0,
`db_stats` returns the all-zero record, and `db_clear`, `db_destroy`,
`db_keys` return immediately (NULL result for `db_keys`, which also
rejects a NULL count out-parameter). -/
theorem C10_null_arguments (dbO : Option Database) (kO vO : Option (List Nat))
    (b : Bool) :
    db_setN none kO vO = (false, none) ∧
      db_setN dbO none vO = (false, dbO) ∧
      db_setN dbO kO none = (false, dbO) ∧
      db_getN none kO = none ∧
      db_getN dbO none = none ∧
      db_deleteN none kO = (false, none) ∧
      db_deleteN dbO none = (false, dbO) ∧
      db_existsN none kO = false ∧
      db_existsN dbO none = false ∧
      db_countN none = 0 ∧
      db_statsN none = { total_entries := 0, total_collisions := 0,
                         max_chain_length := 0, used_buckets := 0 } ∧
      db_clearN none = none ∧
      db_destroyN none = none ∧
      db_keysN none b = none ∧
      db_keysN dbO false = none := by
  refine ⟨?_, ?_, ?_, ?_, ?_, ?_, ?_, ?_, ?_, rfl, rfl, rfl, rfl, ?_, ?_⟩
  · cases kO <;> cases vO <;> rfl
  · cases dbO <;> cases vO <;> rfl
  · cases dbO <;> cases kO <;> rfl
  · cases kO <;> rfl
  · cases dbO <;> rfl
  · cases kO <;> rfl
  · cases dbO <;> rfl
  · cases kO <;> rfl
  · cases dbO <;> rfl
  · cases b <;> rfl
  · cases dbO <;> rfl

end SimpleDB
